import Mathlib

/-!
# A verification development of the calcr expression pipeline

This file embeds the calcr calculator's front-to-back expression pipeline
(lexer → recursive-descent parser → tree evaluator, `src/lexer.rs`,
`src/parser.rs`, `src/interpreter.rs` together with `src/token.rs`,
`src/ast.rs` and `src/errors.rs`) as executable Lean definitions, and proves
properties of the embedded pipeline.

## Modelling conventions

* Rust `f64` values are modelled exactly by the structure `F64`: a
  numerator/denominator pair of integers denoting the rational
  `num / den`.  Every arithmetic operation the claims exercise
  (`+ - * neg`, integer `powf`, `fract`, comparisons, factorial) is exact in
  IEEE double precision on the values the claims use, so the exact rational
  model agrees with the Rust semantics there.  Values are compared inside
  the evaluator only through the semantic comparators `F64.beq`, `F64.blt`,
  `F64.ble` (cross multiplication), mirroring IEEE value comparison; the
  pair representation itself is never compared.  Division by zero (IEEE
  infinity) and rounding phenomena are outside this model.
* The transcendental primitives (`sin`, `cos`, … , `sqrt`, `ln`, `log10`,
  `powf`, and the constant `pi`) have no exact rational counterpart; the
  evaluator is parameterised over a bundle `FloatFns` of such functions, and
  theorems about their guard behaviour hold for *every* bundle.  The
  concrete bundle `defaultFns` implements `powf` exactly on integer
  exponents (where IEEE `powf` is exact) and is used for the concrete
  end-to-end computations.
* Recursion in the Rust lexer/parser loops is bounded by an explicit fuel
  argument so that all definitions are structural and kernel-reducible.
  Each Rust loop iteration consumes at least one character (lexer) or the
  parser descends at most a fixed number of grammar levels per consumed
  token, so the generous fuel supplied by the public entry points
  (`lexEquation`, `parseTokens`) is never exhausted on any input the
  theorems touch; universal theorems are proved for every fuel value.
* `HashMap<String, f64>` is modelled as an association list whose `insert`
  replaces an existing binding in place (as `HashMap::insert` does).
* The repository's `src` directory contains files from two revisions:
  `parser.rs` (and the otherwise line-for-line identical evaluator in
  `evaluator.rs`) build ASTs whose `branches` are `Leaf`/`Unary`/`Binary`
  and include an `AstVal::Paren` node, while `ast.rs`/`interpreter.rs` use a
  `Vec<Ast>` of branches without `Paren`.  The embedding uses the
  `Leaf`/`Unary`/`Binary` shape produced by the parser (flattened into one
  inductive), and the evaluator follows `interpreter.rs` (the module wired
  into `main.rs`), taking the `Paren` arm — evaluate the single child — from
  `evaluator.rs`, and the one/two-branch accessor errors from `ast.rs`.
-/

/-- Exact rational model of a finite `f64`: the value `num / den`.
Every value built by the pipeline keeps `0 < den` (division, the only
operation that could break this, is exercised by no claim). -/
structure F64 where
  num : Int
  den : Int
deriving DecidableEq

/-- The denoted rational value. -/
def F64.toRat (x : F64) : ℚ := (x.num : ℚ) / (x.den : ℚ)

def F64.zero : F64 := ⟨0, 1⟩

def F64.one : F64 := ⟨1, 1⟩

/-- IEEE `==` on finite values: value (not representation) equality. -/
def F64.beq (a b : F64) : Bool := a.num * b.den == b.num * a.den

/-- IEEE `<` on finite values (valid for positive denominators). -/
def F64.blt (a b : F64) : Bool := decide (a.num * b.den < b.num * a.den)

/-- IEEE `<=` on finite values (valid for positive denominators). -/
def F64.ble (a b : F64) : Bool := decide (a.num * b.den ≤ b.num * a.den)

def F64.add (a b : F64) : F64 := ⟨a.num * b.den + b.num * a.den, a.den * b.den⟩

def F64.sub (a b : F64) : F64 := ⟨a.num * b.den - b.num * a.den, a.den * b.den⟩

def F64.mul (a b : F64) : F64 := ⟨a.num * b.num, a.den * b.den⟩

/-- Rust `/` on doubles.  For a zero divisor the result denotes `0` rather
than IEEE infinity; no claim exercises division. -/
def F64.div (a b : F64) : F64 := ⟨a.num * b.den, a.den * b.num⟩

def F64.neg (a : F64) : F64 := ⟨-a.num, a.den⟩

/-- Rust `f64::abs`. -/
def F64.abs (a : F64) : F64 := ⟨a.num.natAbs, a.den.natAbs⟩

/-- Rust `f64::trunc`: round toward zero (`Int.tdiv` truncates toward
zero). -/
def F64.trunc (a : F64) : F64 := ⟨a.num.tdiv a.den, 1⟩

/-- Rust `f64::fract`: `self - self.trunc()`. -/
def F64.fract (a : F64) : F64 := a.sub a.trunc

/-- The bundle of floating-point primitives that have no exact rational
counterpart.  The evaluator is parameterised over it; guard-behaviour
theorems hold for every bundle. -/
structure FloatFns where
  sin : F64 → F64
  cos : F64 → F64
  tan : F64 → F64
  asin : F64 → F64
  acos : F64 → F64
  atan : F64 → F64
  exp : F64 → F64
  sqrt : F64 → F64
  ln : F64 → F64
  log10 : F64 → F64
  powf : F64 → F64 → F64
  pi : F64

/-- Concrete bundle used for end-to-end computations.  `powf` is exact on
integer exponents — the only exponents the claims use, where IEEE `powf` is
also exact; the transcendental fields are stand-ins never reached by a
claim.  `pi` is the exact value of `f64::consts::PI`. -/
def defaultFns : FloatFns where
  sin := fun _ => F64.zero
  cos := fun _ => F64.zero
  tan := fun _ => F64.zero
  asin := fun _ => F64.zero
  acos := fun _ => F64.zero
  atan := fun _ => F64.zero
  exp := fun _ => F64.zero
  sqrt := fun _ => F64.zero
  ln := fun _ => F64.zero
  log10 := fun _ => F64.zero
  powf := fun a b =>
    if b.den = 1 ∧ 0 ≤ b.num then ⟨a.num ^ b.num.toNat, a.den ^ b.num.toNat⟩
    else F64.zero
  pi := ⟨884279719003555, 281474976710656⟩

/-- `errors.rs`: `CalcrError { desc, span }`; spans are half-open character
offset ranges. -/
structure CalcrError where
  desc : String
  span : Option (Nat × Nat)
deriving DecidableEq

/-- `ast.rs` / `token.rs`: `OpKind` (the `ast.rs` variant set, which is what
`lexer.rs` and `parser.rs` construct and match). -/
inductive OpKind where
  | Plus
  | Minus
  | Mult
  | Div
  | Pow
  | Fact
  | Neg
  | Assign
deriving DecidableEq

/-- `token.rs` declares `DelimKind { Paren, Bracket, Brace }`, but no code
path in the `src` lexer or parser ever constructs a bracket or brace
token. -/
inductive DelimKind where
  | Paren
  | Bracket
  | Brace
deriving DecidableEq

/-- The keyword kind referenced by `parser.rs` as `token::KeywordKind::Let`
(its declaration is absent from the `src` revision of `token.rs`).  The
lexer never produces a keyword token. -/
inductive KeywordKind where
  | Let
deriving DecidableEq

/-- Token payload, with the variant set that `lexer.rs` constructs and
`parser.rs` consumes (`ParenOpen`/`ParenClose`/`AbsDelim`, plus the
`Keyword` variant referenced by `parser.rs`). -/
inductive TokVal where
  | Name (s : String)
  | Num (n : F64)
  | Op (o : OpKind)
  | ParenOpen
  | ParenClose
  | AbsDelim
  | Keyword (k : KeywordKind)
deriving DecidableEq

/-- `token.rs`: a token is a payload plus its character-offset span. -/
structure Token where
  val : TokVal
  span : Nat × Nat
deriving DecidableEq

/-- `ast.rs`: `FuncKind`. -/
inductive FuncKind where
  | Sin
  | Cos
  | Tan
  | Asin
  | Acos
  | Atan
  | Sqrt
  | Abs
  | Exp
  | Ln
  | Log
deriving DecidableEq

/-- `ast.rs`: `ConstKind`. -/
inductive ConstKind where
  | Pi
  | E
  | Phi
deriving DecidableEq

/-- `ast.rs`: `AstVal`, including the `Paren` variant that `parser.rs`
constructs. -/
inductive AstVal where
  | Func (f : FuncKind)
  | Op (o : OpKind)
  | Const (c : ConstKind)
  | Num (n : F64)
  | LastResult
  | Name (s : String)
  | Paren
deriving DecidableEq

/-- The AST: `Ast { val, span, branches }` with
`branches ∈ {Leaf, Unary, Binary}` flattened into a single inductive. -/
inductive Ast where
  | leaf (val : AstVal) (span : Nat × Nat)
  | unary (val : AstVal) (span : Nat × Nat) (child : Ast)
  | binary (val : AstVal) (span : Nat × Nat) (lhs rhs : Ast)
deriving DecidableEq

def Ast.val : Ast → AstVal
  | .leaf v _ => v
  | .unary v _ _ => v
  | .binary v _ _ _ => v

def Ast.span : Ast → Nat × Nat
  | .leaf _ sp => sp
  | .unary _ sp _ => sp
  | .binary _ sp _ _ => sp

/-- `ast.rs`: `get_total_span` — fold the children's total spans into the
node's own span with `min`/`max`. -/
def Ast.get_total_span : Ast → Nat × Nat
  | .leaf _ sp => sp
  | .unary _ sp c =>
    (min sp.1 c.get_total_span.1, max sp.2 c.get_total_span.2)
  | .binary _ sp l r =>
    (min (min sp.1 l.get_total_span.1) r.get_total_span.1,
     max (max sp.2 l.get_total_span.2) r.get_total_span.2)

/-! ## Lexer (`lexer.rs`)

The lexer state is the running character offset `pos` plus the remaining
characters.  `consume_char` lowercases the character it consumes. -/

/-- Rust `char::is_numeric`, restricted to the character repertoire the
program distinguishes (the claims use ASCII digits only). -/
def isNumericCh (c : Char) : Bool := c.isDigit

/-- Rust `char::is_alphabetic`, restricted to ASCII letters plus the
non-ASCII letters the program special-cases (`π`, `ϕ`); `√` is a math
symbol, not alphabetic. -/
def isAlphabeticCh (c : Char) : Bool := c.isAlpha || c == 'π' || c == 'ϕ'

/-- Rust `char::is_whitespace` (the claims use ASCII whitespace only). -/
def isWhitespaceCh (c : Char) : Bool := c.isWhitespace

/-- `Lexer::consume_while`: consume characters while `pred` holds, returning
the consumed (lowercased, as `consume_char` lowercases) characters, the new
offset, and the remaining characters. -/
def consumeWhile (pred : Char → Bool) : Nat → List Char → List Char × Nat × List Char
  | pos, [] => ([], pos, [])
  | pos, c :: rest =>
    if pred c then
      let r := consumeWhile pred (pos + 1) rest
      (c.toLower :: r.1, r.2)
    else
      ([], pos, c :: rest)

/-- Digit-string value, used by the model of `str::parse::<f64>`. -/
def natOfDigits (cs : List Char) : Nat :=
  cs.foldl (fun acc c => 10 * acc + (c.toNat - 48)) 0

/-- Model of Rust `str::parse::<f64>` on the strings `lex_number` can
produce (runs of digits and `.`): at most one dot, at least one leading
digit.  The value is the exact decimal value (f64 parsing would round
literals longer than 53 bits; the claims use short, exactly representable
literals). -/
def parseF64 (s : String) : Option F64 :=
  let cs := s.toList
  let ip := cs.takeWhile Char.isDigit
  let rest := cs.dropWhile Char.isDigit
  if ip.isEmpty then none
  else
    match rest with
    | [] => some ⟨natOfDigits ip, 1⟩
    | '.' :: fp =>
      if fp.all Char.isDigit then
        some ⟨(natOfDigits ip : Int) * (10 : Int) ^ fp.length + (natOfDigits fp : Int),
              (10 : Int) ^ fp.length⟩
      else none
    | _ => none

/-- `Lexer::lex_number`.  The span start is computed, as in the source, by
subtracting the *byte* length of the consumed run (`num_str.len()`) from the
character offset; for the ASCII digit runs the claims use the two agree. -/
def lexNumber (pos : Nat) (cs : List Char) : Except CalcrError (Token × Nat × List Char) :=
  let r := consumeWhile (fun c => isNumericCh c || c == '.') pos cs
  let numStr := String.mk r.1
  match parseF64 numStr with
  | some num =>
    .ok (⟨.Num num, (r.2.1 - numStr.utf8ByteSize, r.2.1)⟩, r.2.1, r.2.2)
  | none =>
    .error ⟨"Invalid number: " ++ numStr, some (r.2.1 - numStr.utf8ByteSize, r.2.1)⟩

/-- `Lexer::lex_name` (span start uses the character count). -/
def lexName (pos : Nat) (cs : List Char) : Except CalcrError (Token × Nat × List Char) :=
  let r := consumeWhile isAlphabeticCh pos cs
  let nameStr := String.mk r.1
  .ok (⟨.Name nameStr, (r.2.1 - r.1.length, r.2.1)⟩, r.2.1, r.2.2)

/-- The symbol table of `Lexer::lex_single_char`: which token value a
single (already lowercased) character lexes to, if any. -/
def lexSingleCharVal (ch : Char) : Option TokVal :=
  match ch with
  | '+' => some (.Op .Plus)
  | '-' => some (.Op .Minus)
  | '*' => some (.Op .Mult)
  | '/' => some (.Op .Div)
  | '^' => some (.Op .Pow)
  | '!' => some (.Op .Fact)
  | '√' => some (.Name "sqrt")
  | '(' => some .ParenOpen
  | ')' => some .ParenClose
  | '|' => some .AbsDelim
  | _ => none

/-- `Lexer::lex_single_char` on the peeked head character `c` (whose
presence `lex_equation` has established, so the Rust `consume_char` cannot
panic).  `consume_char` lowercases the consumed character. -/
def lexSingleChar (pos : Nat) (c : Char) (rest : List Char) :
    Except CalcrError (Token × Nat × List Char) :=
  let ch := c.toLower
  match lexSingleCharVal ch with
  | some v => .ok (⟨v, (pos + 1 - 1, pos + 1)⟩, pos + 1, rest)
  | none => .error ⟨"Invalid char: " ++ String.mk [ch], some (pos + 1 - 1, pos + 1)⟩

/-- The `Lexer::lex_equation` loop.  Each iteration consumes at least one
character, so fuel `cs.length + 1` (supplied by `lexEquation`) is never
exhausted; the fuel-exhaustion arm is unreachable from the public entry
point. -/
def lexLoop : Nat → Nat → List Char → Except CalcrError (List Token)
  | 0, _, _ => .error ⟨"Internal error - lexer fuel exhausted", none⟩
  | fuel + 1, pos, cs =>
    let ws := consumeWhile isWhitespaceCh pos cs
    match ws.2.2 with
    | [] => .ok []
    | c :: rest =>
      let step :=
        if isNumericCh c then lexNumber ws.2.1 (c :: rest)
        else if isAlphabeticCh c then lexName ws.2.1 (c :: rest)
        else lexSingleChar ws.2.1 c rest
      match step with
      | .error e => .error e
      | .ok (tok, pos2, cs2) =>
        match lexLoop fuel pos2 cs2 with
        | .error e => .error e
        | .ok toks => .ok (tok :: toks)

/-- `lexer.rs`: `lex_equation`, the public lexing entry point. -/
def lexEquation (eq : String) : Except CalcrError (List Token) :=
  lexLoop (eq.toList.length + 1) 0 eq.toList

/-! ## Parser (`parser.rs`) -/

/-- `parser.rs`: `get_builtin_name`. -/
def getBuiltinName (name : String) : Option AstVal :=
  match name with
  | "ans" => some .LastResult
  | "pi" => some (.Const .Pi)
  | "π" => some (.Const .Pi)
  | "e" => some (.Const .E)
  | "phi" => some (.Const .Phi)
  | "ϕ" => some (.Const .Phi)
  | "cos" => some (.Func .Cos)
  | "sin" => some (.Func .Sin)
  | "tan" => some (.Func .Tan)
  | "asin" => some (.Func .Asin)
  | "acos" => some (.Func .Acos)
  | "atan" => some (.Func .Atan)
  | "sqrt" => some (.Func .Sqrt)
  | "√" => some (.Func .Sqrt)
  | "abs" => some (.Func .Abs)
  | "exp" => some (.Func .Exp)
  | "ln" => some (.Func .Ln)
  | "log" => some (.Func .Log)
  | _ => none

def isFuncVal : AstVal → Bool
  | .Func _ => true
  | _ => false

/-- The parser state: the remaining tokens (the `Peekable` iterator) plus
the `paren_level` / `abs_level` nesting counters and the end offset. -/
structure PState where
  toks : List Token
  parenLevel : Nat
  absLevel : Nat
  endPos : Nat
deriving DecidableEq

/-- `Parser::next_tok_is`. -/
def nextTokIs (st : PState) (v : TokVal) : Bool :=
  match st.toks with
  | [] => false
  | t :: _ => decide (t.val = v)

/-- The grammar level being parsed.  One level per `Parser` method; the
`…Loop` levels carry the accumulated left-hand side of the corresponding
Rust `while` loop. -/
inductive PLevel where
  | expression
  | equation
  | equationLoop (lhs : Ast)
  | product
  | productLoop (lhs : Ast)
  | factor
  | exponent
  | exponentLoop (acc : Ast)
  | number

/-- The recursive-descent parser: one structural function over fuel whose
`PLevel` argument selects the `Parser` method
(`parse_expression`/`parse_equation`/`parse_product`/`parse_factor`/
`parse_exponent`/`parse_number`), with each Rust `while` loop expressed as
the corresponding `…Loop` level.  Every recursive call spends one unit of
fuel; the descent per consumed token is bounded, so the generous fuel
supplied by `parseTokens` is never exhausted (and universal theorems hold
for every fuel). -/
def parseL : Nat → PLevel → PState → Except CalcrError (Ast × PState)
  | 0, _, _ => .error ⟨"Internal error - parser fuel exhausted", none⟩
  | fuel + 1, lvl, st =>
    match lvl with
    | .expression =>
      match st.toks with
      | ⟨.Keyword .Let, _⟩ :: rest =>
        match rest with
        | [] => .error ⟨"Expected name to assign to", some (st.endPos, st.endPos)⟩
        | ⟨tokVal, tokSpan⟩ :: rest2 =>
          let st2 : PState := { st with toks := rest2 }
          match tokVal with
          | .Name name =>
            if (getBuiltinName name).isNone then
              if nextTokIs st2 (.Op .Assign) then
                match st2.toks with
                | assignTok :: rest3 =>
                  match parseL fuel .equation { st2 with toks := rest3 } with
                  | .error e => .error e
                  | .ok (eq, st3) =>
                    .ok (.binary (.Op .Assign) assignTok.span (.leaf (.Name name) tokSpan) eq, st3)
                | [] => .error ⟨"Internal error - parser consumed past end", none⟩
              else
                .error ⟨"Expected assignment operator '=' after name", some tokSpan⟩
            else
              .error ⟨"Cannot assign to builtin name '" ++ name ++ "'", some tokSpan⟩
          | _ => .error ⟨"Expected name to assign to", some tokSpan⟩
      | _ => parseL fuel .equation st
    | .equation =>
      match parseL fuel .product st with
      | .error e => .error e
      | .ok (lhs, st1) => parseL fuel (.equationLoop lhs) st1
    | .equationLoop lhs =>
      match st.toks with
      | ⟨.Op .Plus, sp⟩ :: rest =>
        match parseL fuel .product { st with toks := rest } with
        | .error e => .error e
        | .ok (rhs, st2) => parseL fuel (.equationLoop (.binary (.Op .Plus) sp lhs rhs)) st2
      | ⟨.Op .Minus, sp⟩ :: rest =>
        match parseL fuel .product { st with toks := rest } with
        | .error e => .error e
        | .ok (rhs, st2) => parseL fuel (.equationLoop (.binary (.Op .Minus) sp lhs rhs)) st2
      | ⟨.ParenClose, sp⟩ :: _ =>
        if st.parenLevel < 1 then .error ⟨"Missing opening parentheses", some sp⟩
        else .ok (lhs, st)
      | ⟨.AbsDelim, sp⟩ :: _ =>
        if st.absLevel < 1 then .error ⟨"Missing opening abs delimiter", some sp⟩
        else .ok (lhs, st)
      | _ => .ok (lhs, st)
    | .product =>
      match parseL fuel .factor st with
      | .error e => .error e
      | .ok (lhs, st1) => parseL fuel (.productLoop lhs) st1
    | .productLoop lhs =>
      match st.toks with
      | ⟨.Op .Mult, sp⟩ :: rest =>
        match parseL fuel .factor { st with toks := rest } with
        | .error e => .error e
        | .ok (rhs, st2) => parseL fuel (.productLoop (.binary (.Op .Mult) sp lhs rhs)) st2
      | ⟨.Op .Div, sp⟩ :: rest =>
        match parseL fuel .factor { st with toks := rest } with
        | .error e => .error e
        | .ok (rhs, st2) => parseL fuel (.productLoop (.binary (.Op .Div) sp lhs rhs)) st2
      | _ => .ok (lhs, st)
    | .factor =>
      match st.toks with
      | ⟨.Op .Minus, sp⟩ :: rest =>
        match parseL fuel .factor { st with toks := rest } with
        | .error e => .error e
        | .ok (rhs, st1) => .ok (.unary (.Op .Neg) sp rhs, st1)
      | _ =>
        match parseL fuel .exponent st with
        | .error e => .error e
        | .ok (lhs, st1) =>
          match st1.toks with
          | ⟨.Op .Pow, sp⟩ :: rest =>
            match parseL fuel .factor { st1 with toks := rest } with
            | .error e => .error e
            | .ok (rhs, st2) => .ok (.binary (.Op .Pow) sp lhs rhs, st2)
          | _ => .ok (lhs, st1)
    | .exponent =>
      match parseL fuel .number st with
      | .error e => .error e
      | .ok (out, st1) => parseL fuel (.exponentLoop out) st1
    | .exponentLoop acc =>
      match st.toks with
      | ⟨.Op .Fact, sp⟩ :: rest =>
        parseL fuel (.exponentLoop (.unary (.Op .Fact) sp acc)) { st with toks := rest }
      | _ => .ok (acc, st)
    | .number =>
      match st.toks with
      | [] => .error ⟨"Expected number or constant", some (st.endPos, st.endPos)⟩
      | ⟨tokVal, tokSpan⟩ :: rest =>
        let st1 : PState := { st with toks := rest }
        match tokVal with
        | .Name name =>
          let val := (getBuiltinName name).getD (.Name name)
          if isFuncVal val then
            if nextTokIs st1 .ParenOpen then
              match parseL fuel .equation st1 with
              | .error e => .error e
              | .ok (arg, st2) => .ok (.unary val tokSpan arg, st2)
            else
              .error ⟨"Missing opening parentheses after function", some tokSpan⟩
          else
            .ok (.leaf val tokSpan, st1)
        | .ParenOpen =>
          match parseL fuel .equation { st1 with parenLevel := st1.parenLevel + 1 } with
          | .error e => .error e
          | .ok (eq, st2) =>
            match st2.toks with
            | ⟨.ParenClose, closeSpan⟩ :: rest2 =>
              .ok (.unary .Paren (tokSpan.1, closeSpan.2) eq,
                   { st2 with toks := rest2, parenLevel := st2.parenLevel - 1 })
            | _ => .error ⟨"Missing closing parentheses", some tokSpan⟩
        | .AbsDelim =>
          match parseL fuel .equation { st1 with absLevel := st1.absLevel + 1 } with
          | .error e => .error e
          | .ok (eq, st2) =>
            match st2.toks with
            | ⟨.AbsDelim, closeSpan⟩ :: rest2 =>
              .ok (.unary (.Func .Abs) (tokSpan.1, closeSpan.2) eq,
                   { st2 with toks := rest2, absLevel := st2.absLevel - 1 })
            | _ => .error ⟨"Missing closing abs delimiter", some tokSpan⟩
        | .Num n => .ok (.leaf (.Num n) tokSpan, st1)
        | _ => .error ⟨"Expected number or constant", some tokSpan⟩

/-- The invariant carried through `parseL` at every level reachable from
`parse_equation`: the level is not the top-level `parse_expression` (the
only producer of `Assign` nodes), and any accumulated left-hand side of a
loop level is itself not an `Assign` node. -/
def plevelOK : PLevel → Prop
  | .expression => False
  | .equationLoop lhs => lhs.val ≠ .Op .Assign
  | .productLoop lhs => lhs.val ≠ .Op .Assign
  | .exponentLoop acc => acc.val ≠ .Op .Assign
  | _ => True

/-- `parser.rs`: `parse_tokens`, the public parsing entry point
(`end_pos` is the last token's span end, or `0`). -/
def parseTokens (toks : List Token) : Except CalcrError Ast :=
  let endPos := (toks.getLast?.map (fun tok => tok.span.2)).getD 0
  match parseL (6 * (toks.length + 1) + 6) .expression ⟨toks, 0, 0, endPos⟩ with
  | .error e => .error e
  | .ok (ast, _) => .ok ast

/-! ## Evaluator (`interpreter.rs`, with the `Paren` arm of `evaluator.rs`) -/

/-- The `Interpreter` session state: the variable table and the last
result. -/
structure InterpState where
  vars : List (String × F64)
  lastResult : F64
deriving DecidableEq

/-- `Interpreter::new()`. -/
def freshInterp : InterpState := ⟨[], F64.zero⟩

/-- `HashMap::get`. -/
def lookupVar : List (String × F64) → String → Option F64
  | [], _ => none
  | (k, v) :: rest, n => if k = n then some v else lookupVar rest n

/-- `HashMap::insert`: replace an existing binding, else append. -/
def insertVar : List (String × F64) → String → F64 → List (String × F64)
  | [], n, v => [(n, v)]
  | (k, w) :: rest, n, v =>
    if k = n then (k, v) :: rest else (k, w) :: insertVar rest n v

/-- `Interpreter::eval_const`.  `E` is computed as `(1.0f64).exp()` in the
source, hence `F.exp F64.one`; `Phi` is the source's decimal literal,
exactly. -/
def evalConst (F : FloatFns) : ConstKind → Except CalcrError F64
  | .Pi => .ok F.pi
  | .E => .ok (F.exp F64.one)
  | .Phi => .ok ⟨16180339887498948482, 10000000000000000000⟩

/-- The `while num > 0.0 { out *= num; num -= 1.0 }` loop of
`Interpreter::evalf_fact`, with fuel.  The guard in `evalfFact` ensures the
loop runs exactly `num` times, one unit of fuel each.

This is the exact-rational reading of the loop: `F64.mul`/`F64.sub` do not
round.  It models the Rust `f64` loop only on inputs for which every IEEE
intermediate is exact; the bit-accurate reference `ieeeFactLoop` below
establishes that this holds precisely for arguments up to `22` (the
rounded loop first differs from the exact product at `23`, and for
arguments at or above `2 ^ 54` the real loop's `num -= 1.0` does not even
decrease `num`). -/
def factLoop : Nat → F64 → F64 → F64
  | 0, out, _ => out
  | fuel + 1, out, num =>
    if F64.blt F64.zero num then factLoop fuel (out.mul num) (num.sub F64.one)
    else out

/-- `Interpreter::evalf_fact`. -/
def evalfFact (num : F64) (child : Ast) : Except CalcrError F64 :=
  if (num.fract.beq F64.zero && F64.ble F64.zero num) = true then
    .ok (factLoop ((num.num.tdiv num.den).toNat + 1) F64.one num)
  else
    .error ⟨"The factorial function only accepts positive whole numbers",
            some child.get_total_span⟩

/-- How many halvings bring `n` below `2 ^ 53` — the binade shift needed to
scale `n` into the 53-bit significand range.  The fuel argument (any value
past the bit length of `n`) keeps the recursion structural; `rnd53` passes
`1100`, beyond the bit length of every finite `f64`. -/
def exp53 : Nat → Nat → Nat
  | 0, _ => 0
  | fuel + 1, n => if n < 2 ^ 53 then 0 else exp53 fuel (n / 2) + 1

/-- IEEE-754 round-to-nearest, ties-to-even, of a natural number to a
53-bit significand: the result of an `f64` operation whose exact value is
`n` (for the in-range, non-overflowing magnitudes the factorial claims
exercise).  Numbers below `2 ^ 53` are returned unchanged. -/
def rnd53 (n : Nat) : Nat :=
  let e := exp53 1100 n
  if e = 0 then n
  else
    let q := n / 2 ^ e
    let r := n % 2 ^ e
    let half := 2 ^ (e - 1)
    if r < half then q * 2 ^ e
    else if half < r then (q + 1) * 2 ^ e
    else if q % 2 = 0 then q * 2 ^ e
    else (q + 1) * 2 ^ e

/-- Bit-accurate reference model of the `evalf_fact` loop on a
non-negative integer argument below `2 ^ 53` (where `num -= 1.0` is exact):
each `out *= num` computes the exact product and rounds it to a 53-bit
significand, which is precisely IEEE `f64` multiplication on these
in-range values.  This is the loop the Rust program actually runs, and it
is what certifies — and bounds — the exact-rational `factLoop`. -/
def ieeeFactLoop : Nat → Nat → Nat → Nat
  | 0, out, _ => out
  | fuel + 1, out, num =>
    if 0 < num then ieeeFactLoop fuel (rnd53 (out * num)) (num - 1)
    else out

/-- The body of `Interpreter::eval_func` once the single child has been
evaluated to `arg` (the child is retained for the error spans). -/
def evalFuncVal (F : FloatFns) (f : FuncKind) (arg : F64) (child : Ast) :
    Except CalcrError F64 :=
  match f with
  | .Sin => .ok (F.sin arg)
  | .Cos => .ok (F.cos arg)
  | .Tan => .ok (F.tan arg)
  | .Asin => .ok (F.asin arg)
  | .Acos => .ok (F.acos arg)
  | .Atan => .ok (F.atan arg)
  | .Abs => .ok arg.abs
  | .Exp => .ok (F.exp arg)
  | .Sqrt =>
    if F64.blt arg F64.zero then
      .error ⟨"Cannot take the square root of a negative number",
              some child.get_total_span⟩
    else .ok (F.sqrt arg)
  | .Ln =>
    if F64.ble arg F64.zero then
      .error ⟨"Cannot take the logarithm of a non-positive number",
              some child.get_total_span⟩
    else .ok (F.ln arg)
  | .Log =>
    if F64.ble arg F64.zero then
      .error ⟨"Cannot take the logarithm of a non-positive number",
              some child.get_total_span⟩
    else .ok (F.log10 arg)

/-- The binary-operator body of `Interpreter::eval_op` once both children
have been evaluated. -/
def evalOpBin (F : FloatFns) (op : OpKind) (lhs rhs : F64) : Except CalcrError F64 :=
  match op with
  | .Plus => .ok (lhs.add rhs)
  | .Minus => .ok (lhs.sub rhs)
  | .Mult => .ok (lhs.mul rhs)
  | .Div => .ok (lhs.div rhs)
  | .Pow => .ok (F.powf lhs rhs)
  | _ => .error ⟨"Internal error - expected AstOp to have binary branch", none⟩

/-- `Interpreter::eval_eq`, dispatching as the source does on the node value
and branch shape; the `Func`/`Op` arms inline `eval_func`/`eval_op` (whose
post-evaluation bodies are `evalFuncVal`/`evalOpBin`/`evalfFact`), and the
accessor errors for wrong branch counts are those of `ast.rs`.  The `Paren`
arm is `evaluator.rs`'s: evaluate the single child. -/
def evalEq (F : FloatFns) (st : InterpState) : Ast → Except CalcrError F64
  | .leaf (.Num n) _ => .ok n
  | .unary (.Num n) _ _ => .ok n
  | .binary (.Num n) _ _ _ => .ok n
  | .leaf (.Const c) _ => evalConst F c
  | .unary (.Const c) _ _ => evalConst F c
  | .binary (.Const c) _ _ _ => evalConst F c
  | .leaf .LastResult _ => .ok st.lastResult
  | .unary .LastResult _ _ => .ok st.lastResult
  | .binary .LastResult _ _ _ => .ok st.lastResult
  | .leaf (.Name n) sp =>
    match lookupVar st.vars n with
    | some v => .ok v
    | none => .error ⟨"Invalid function or constant: " ++ n,
                      some (Ast.get_total_span (.leaf (.Name n) sp))⟩
  | .unary (.Name n) sp c =>
    match lookupVar st.vars n with
    | some v => .ok v
    | none => .error ⟨"Invalid function or constant: " ++ n,
                      some (Ast.get_total_span (.unary (.Name n) sp c))⟩
  | .binary (.Name n) sp l r =>
    match lookupVar st.vars n with
    | some v => .ok v
    | none => .error ⟨"Invalid function or constant: " ++ n,
                      some (Ast.get_total_span (.binary (.Name n) sp l r))⟩
  | .unary (.Func f) _ child =>
    match evalEq F st child with
    | .error e => .error e
    | .ok arg => evalFuncVal F f arg child
  | .leaf (.Func _) sp =>
    .error ⟨"Internal error - expected AST to have 1 branch", some sp⟩
  | .binary (.Func _) sp _ _ =>
    .error ⟨"Internal error - expected AST to have 1 branch", some sp⟩
  | .binary (.Op o) _ l r =>
    match evalEq F st l with
    | .error e => .error e
    | .ok lv =>
      match evalEq F st r with
      | .error e => .error e
      | .ok rv => evalOpBin F o lv rv
  | .unary (.Op o) _ child =>
    match evalEq F st child with
    | .error e => .error e
    | .ok v =>
      match o with
      | .Neg => .ok v.neg
      | .Fact => evalfFact v child
      | _ => .error ⟨"Internal error - expected AstOp to have unary branch", none⟩
  | .leaf (.Op _) _ =>
    .error ⟨"Internal error - AstOp nodes must have 1 or 2 branches", none⟩
  | .unary .Paren _ child => evalEq F st child
  | .leaf .Paren _ =>
    .error ⟨"Internal error - expected Paren to have unary branch", none⟩
  | .binary .Paren _ _ _ =>
    .error ⟨"Internal error - expected Paren to have unary branch", none⟩

/-- `Interpreter::eval_expr`: the top-level dispatch on `Assign`.  The
session state is threaded explicitly (`&mut self` in Rust); `eval_eq` only
reads the state, so it takes the state by value above. -/
def evalExpr (F : FloatFns) (st : InterpState) (ast : Ast) :
    Except CalcrError (Option F64) × InterpState :=
  if ast.val = .Op .Assign then
    match ast with
    | .binary _ _ lhs rhs =>
      match lhs.val with
      | .Name name =>
        match evalEq F st rhs with
        | .error e => (.error e, st)
        | .ok v => (.ok none, { st with vars := insertVar st.vars name v })
      | _ =>
        (.error ⟨"Interal error - expected Assign to have Name in left branch", none⟩, st)
    | _ =>
      (.error ⟨"Internal error - expected AST to have 2 branches", some ast.span⟩, st)
  else
    match evalEq F st ast with
    | .error e => (.error e, st)
    | .ok v => (.ok (some v), st)

/-- `Interpreter::eval_expression`: the public entry point — lex, parse,
evaluate, and store the result into `last_result` when it is
`Ok(Some(_))`. -/
def evalExpression (F : FloatFns) (st : InterpState) (expr : String) :
    Except CalcrError (Option F64) × InterpState :=
  match lexEquation expr with
  | .error e => (.error e, st)
  | .ok toks =>
    match parseTokens toks with
    | .error e => (.error e, st)
    | .ok ast =>
      let r := evalExpr F st ast
      match r.1 with
      | .ok (some res) => (.ok (some res), { r.2 with lastResult := res })
      | other => (other, r.2)

/-- Whether a pipeline outcome is `Ok(None)` (the assignment outcome). -/
def isOkNone : Except CalcrError (Option F64) → Bool
  | .ok none => true
  | _ => false

/-! ## Supporting lemmas

Denotation lemmas for the `F64` operations and comparators (valid for the
positive denominators the pipeline maintains), the factorial-loop value
lemma, state lemmas for the evaluator, and the lexer/parser invariants
(the lexer emits no keyword token; no level of the parser reachable from
`parse_equation` produces an `Assign` root). -/

theorem F64.toRat_zero : F64.zero.toRat = 0 := by
  simp [F64.toRat, F64.zero]

theorem F64.toRat_one : F64.one.toRat = 1 := by
  simp [F64.toRat, F64.one]

theorem F64.blt_iff {a b : F64} (ha : 0 < a.den) (hb : 0 < b.den) :
    F64.blt a b = true ↔ a.toRat < b.toRat := by
  have ha' : (0 : ℚ) < (a.den : ℚ) := by exact_mod_cast ha
  have hb' : (0 : ℚ) < (b.den : ℚ) := by exact_mod_cast hb
  rw [F64.blt, decide_eq_true_iff, F64.toRat, F64.toRat, div_lt_div_iff₀ ha' hb']
  constructor <;> intro h <;> exact_mod_cast h

theorem F64.ble_iff {a b : F64} (ha : 0 < a.den) (hb : 0 < b.den) :
    F64.ble a b = true ↔ a.toRat ≤ b.toRat := by
  have ha' : (0 : ℚ) < (a.den : ℚ) := by exact_mod_cast ha
  have hb' : (0 : ℚ) < (b.den : ℚ) := by exact_mod_cast hb
  rw [F64.ble, decide_eq_true_iff, F64.toRat, F64.toRat, div_le_div_iff₀ ha' hb']
  constructor <;> intro h <;> exact_mod_cast h

theorem F64.beq_iff {a b : F64} (ha : 0 < a.den) (hb : 0 < b.den) :
    F64.beq a b = true ↔ a.toRat = b.toRat := by
  have ha' : ((a.den : ℚ)) ≠ 0 := by
    have : (0 : ℚ) < (a.den : ℚ) := by exact_mod_cast ha
    exact ne_of_gt this
  have hb' : ((b.den : ℚ)) ≠ 0 := by
    have : (0 : ℚ) < (b.den : ℚ) := by exact_mod_cast hb
    exact ne_of_gt this
  rw [F64.beq, beq_iff_eq, F64.toRat, F64.toRat, div_eq_div_iff ha' hb']
  constructor <;> intro h <;> exact_mod_cast h

theorem F64.mul_toRat (a b : F64) :
    (a.mul b).toRat = a.toRat * b.toRat := by
  simp only [F64.mul, F64.toRat]
  push_cast
  rw [div_mul_div_comm]

theorem F64.sub_toRat {a b : F64} (ha : a.den ≠ 0) (hb : b.den ≠ 0) :
    (a.sub b).toRat = a.toRat - b.toRat := by
  have ha' : ((a.den : ℚ)) ≠ 0 := by exact_mod_cast ha
  have hb' : ((b.den : ℚ)) ≠ 0 := by exact_mod_cast hb
  simp only [F64.sub, F64.toRat]
  rw [div_sub_div _ _ ha' hb']
  push_cast
  ring_nf

theorem F64.add_toRat {a b : F64} (ha : a.den ≠ 0) (hb : b.den ≠ 0) :
    (a.add b).toRat = a.toRat + b.toRat := by
  have ha' : ((a.den : ℚ)) ≠ 0 := by exact_mod_cast ha
  have hb' : ((b.den : ℚ)) ≠ 0 := by exact_mod_cast hb
  simp only [F64.add, F64.toRat]
  rw [div_add_div _ _ ha' hb']
  push_cast
  ring_nf

theorem F64.neg_toRat (a : F64) : a.neg.toRat = -a.toRat := by
  simp [F64.neg, F64.toRat, neg_div]

theorem factLoop_toRat (k : ℕ) : ∀ (out num : F64), 0 < out.den → 0 < num.den →
    num.toRat = (k : ℚ) →
    (factLoop (k + 1) out num).toRat = out.toRat * (Nat.factorial k : ℚ) := by
  induction k with
  | zero =>
    intro out num ho hn hv
    have hlt : F64.blt F64.zero num = false := by
      rw [← Bool.not_eq_true, F64.blt_iff (by norm_num [F64.zero]) hn]
      rw [F64.toRat_zero, hv]
      norm_num
    rw [factLoop, hlt]
    simp [Nat.factorial]
  | succ k ih =>
    intro out num ho hn hv
    have hlt : F64.blt F64.zero num = true := by
      rw [F64.blt_iff (by norm_num [F64.zero]) hn, F64.toRat_zero, hv]
      positivity
    rw [factLoop, hlt]
    simp only [if_true]
    have hsubden : (num.sub F64.one).den = num.den := by
      simp [F64.sub, F64.one]
    have hmulden : 0 < (out.mul num).den := by
      simp only [F64.mul]
      exact mul_pos ho hn
    have hsubval : (num.sub F64.one).toRat = (k : ℚ) := by
      rw [F64.sub_toRat (ne_of_gt hn) (by norm_num [F64.one]), F64.toRat_one, hv]
      push_cast
      ring
    have := ih (out.mul num) (num.sub F64.one) hmulden (by rw [hsubden]; exact hn) hsubval
    rw [this, F64.mul_toRat, hv, Nat.factorial_succ]
    push_cast
    ring

theorem evalfFact_int (num : F64) (child : Ast) (k : ℕ)
    (hden : 0 < num.den) (hval : num.toRat = (k : ℚ)) :
    evalfFact num child = .ok (factLoop (k + 1) F64.one num) ∧
    (factLoop (k + 1) F64.one num).toRat = (Nat.factorial k : ℚ) := by
  have hd' : ((num.den : ℚ)) ≠ 0 := by
    have : (0 : ℚ) < (num.den : ℚ) := by exact_mod_cast hden
    exact ne_of_gt this
  have hn : (num.num : ℚ) = (k : ℚ) * (num.den : ℚ) := by
    rw [F64.toRat] at hval
    exact (div_eq_iff hd').mp hval
  have hnum : num.num = (k : ℤ) * num.den := by exact_mod_cast hn
  have htdiv : num.num.tdiv num.den = (k : ℤ) := by
    rw [hnum]
    exact Int.mul_tdiv_cancel _ (ne_of_gt hden)
  have haux : num.num - num.num.tdiv num.den * num.den = 0 := by
    rw [htdiv, hnum]
    ring
  have hfract : num.fract.beq F64.zero = true := by
    simp only [F64.fract, F64.trunc, F64.sub, F64.beq, F64.zero, mul_one, zero_mul, beq_iff_eq]
    omega
  have hble : F64.ble F64.zero num = true := by
    rw [F64.ble_iff (by norm_num [F64.zero]) hden, F64.toRat_zero, hval]
    positivity
  have hfuel : (num.num.tdiv num.den).toNat + 1 = k + 1 := by
    rw [htdiv]
    simp
  constructor
  · rw [evalfFact, if_pos (by rw [hfract, hble]; rfl), hfuel]
  · have := factLoop_toRat k F64.one num (by norm_num [F64.one]) hden hval
    rw [this, F64.toRat_one, one_mul]

theorem evalfFact_not_int (num : F64) (child : Ast)
    (hden : 0 < num.den) (h : ∀ k : ℕ, num.toRat ≠ (k : ℚ)) :
    evalfFact num child =
      .error ⟨"The factorial function only accepts positive whole numbers",
              some child.get_total_span⟩ := by
  rw [evalfFact, if_neg]
  intro hguard
  rw [Bool.and_eq_true] at hguard
  obtain ⟨h1, h2⟩ := hguard
  have hd' : ((num.den : ℚ)) ≠ 0 := by
    have : (0 : ℚ) < (num.den : ℚ) := by exact_mod_cast hden
    exact ne_of_gt this
  simp [F64.fract, F64.trunc, F64.sub, F64.beq, F64.zero] at h1
  -- h1 : num.num - num.num.tdiv num.den * num.den = 0 (up to simp normal form)
  have hble : (0 : ℚ) ≤ num.toRat := by
    have := (F64.ble_iff (by norm_num [F64.zero]) hden).mp h2
    rwa [F64.toRat_zero] at this
  set t := num.num.tdiv num.den with ht
  have hnum : num.num = t * num.den := by omega
  have htpos : 0 ≤ t := by
    by_contra hneg
    push_neg at hneg
    have hlt : num.num < 0 := by
      rw [hnum]
      exact mul_neg_of_neg_of_pos hneg hden
    have : num.toRat < 0 := by
      rw [F64.toRat]
      apply div_neg_of_neg_of_pos
      · exact_mod_cast hlt
      · exact_mod_cast hden
    linarith
  have : num.toRat = ((t.toNat : ℕ) : ℚ) := by
    rw [F64.toRat, hnum]
    push_cast [Int.toNat_of_nonneg htpos]
    field_simp
    exact_mod_cast (Int.toNat_of_nonneg htpos).symm
  exact h t.toNat this

theorem evalEq_func (F : FloatFns) (st : InterpState) (f : FuncKind)
    (sp : Nat × Nat) (child : Ast) (v : F64) (h : evalEq F st child = .ok v) :
    evalEq F st (.unary (.Func f) sp child) = evalFuncVal F f v child := by
  rw [evalEq, h]

theorem evalExpr_error_state (F : FloatFns) (st : InterpState) (ast : Ast)
    (e : CalcrError) (h : (evalExpr F st ast).1 = .error e) :
    (evalExpr F st ast).2 = st := by
  by_cases hv : ast.val = .Op .Assign
  · cases ast with
    | binary v sp lhs rhs =>
      cases hl : lhs.val with
      | Name name =>
        cases hr : evalEq F st rhs with
        | error e2 => simp [evalExpr, hv, hl, hr]
        | ok v2 =>
          exfalso
          simp [evalExpr, hv, hl, hr] at h
      | Func f => simp [evalExpr, hv, hl]
      | Op o => simp [evalExpr, hv, hl]
      | Const c => simp [evalExpr, hv, hl]
      | Num n => simp [evalExpr, hv, hl]
      | LastResult => simp [evalExpr, hv, hl]
      | Paren => simp [evalExpr, hv, hl]
    | leaf v sp => simp [evalExpr, hv]
    | unary v sp c => simp [evalExpr, hv]
  · cases hr : evalEq F st ast with
    | error e2 => simp [evalExpr, hv, hr]
    | ok v2 =>
      exfalso
      simp [evalExpr, hv, hr] at h

theorem evalExpr_okSome_state (F : FloatFns) (st : InterpState) (ast : Ast)
    (v : F64) (h : (evalExpr F st ast).1 = .ok (some v)) :
    (evalExpr F st ast).2 = st := by
  by_cases hv : ast.val = .Op .Assign
  · exfalso
    cases ast with
    | binary val sp lhs rhs =>
      cases hl : lhs.val with
      | Name name =>
        cases hr : evalEq F st rhs with
        | error e2 => simp [evalExpr, hv, hl, hr] at h
        | ok v2 => simp [evalExpr, hv, hl, hr] at h
      | Func f => simp [evalExpr, hv, hl] at h
      | Op o => simp [evalExpr, hv, hl] at h
      | Const c => simp [evalExpr, hv, hl] at h
      | Num n => simp [evalExpr, hv, hl] at h
      | LastResult => simp [evalExpr, hv, hl] at h
      | Paren => simp [evalExpr, hv, hl] at h
    | leaf val sp => simp [evalExpr, hv] at h
    | unary val sp c => simp [evalExpr, hv] at h
  · cases hr : evalEq F st ast with
    | error e2 => simp [evalExpr, hv, hr] at h
    | ok v2 => simp [evalExpr, hv, hr]

theorem evalExpr_assign_err (F : FloatFns) (st : InterpState) (sp sp2 : Nat × Nat)
    (name : String) (rhs : Ast) (e : CalcrError) (h : evalEq F st rhs = .error e) :
    evalExpr F st (.binary (.Op .Assign) sp (.leaf (.Name name) sp2) rhs) = (.error e, st) := by
  simp [evalExpr, Ast.val, h]

theorem evalExpr_assign_ok (F : FloatFns) (st : InterpState) (sp sp2 : Nat × Nat)
    (name : String) (rhs : Ast) (v : F64) (h : evalEq F st rhs = .ok v) :
    evalExpr F st (.binary (.Op .Assign) sp (.leaf (.Name name) sp2) rhs) =
      (.ok none, ⟨insertVar st.vars name v, st.lastResult⟩) := by
  simp [evalExpr, Ast.val, h]

theorem evalExpression_error_state (F : FloatFns) (st : InterpState) (s : String)
    (e : CalcrError) (h : (evalExpression F st s).1 = .error e) :
    (evalExpression F st s).2 = st := by
  cases hl : lexEquation s with
  | error e2 => simp [evalExpression, hl]
  | ok toks =>
    cases hp : parseTokens toks with
    | error e2 => simp [evalExpression, hl, hp]
    | ok ast =>
      cases hr : (evalExpr F st ast).1 with
      | ok o =>
        exfalso
        cases o with
        | some res => simp [evalExpression, hl, hp, hr] at h
        | none => simp [evalExpression, hl, hp, hr] at h
      | error e2 =>
        have h2 := evalExpr_error_state F st ast e2 hr
        simp [evalExpression, hl, hp, hr, h2]

theorem evalExpression_okSome_state (F : FloatFns) (st : InterpState) (s : String)
    (v : F64) (h : (evalExpression F st s).1 = .ok (some v)) :
    (evalExpression F st s).2 = ⟨st.vars, v⟩ := by
  cases hl : lexEquation s with
  | error e2 => simp [evalExpression, hl] at h
  | ok toks =>
    cases hp : parseTokens toks with
    | error e2 => simp [evalExpression, hl, hp] at h
    | ok ast =>
      cases hr : (evalExpr F st ast).1 with
      | ok o =>
        cases o with
        | some res =>
          have h2 := evalExpr_okSome_state F st ast res hr
          have hv : res = v := by simp [evalExpression, hl, hp, hr] at h; exact h
          subst hv
          simp [evalExpression, hl, hp, hr, h2]
        | none => simp [evalExpression, hl, hp, hr] at h
      | error e2 => simp [evalExpression, hl, hp, hr] at h

theorem lexSingleCharVal_not_keyword (ch : Char) (v : TokVal)
    (h : lexSingleCharVal ch = some v) : ∀ k, v ≠ .Keyword k := by
  unfold lexSingleCharVal at h
  split at h <;>
    first
      | (injection h with h; subst h; intro k; simp)
      | (exact absurd h (by simp))

theorem lexNumber_not_keyword (pos : Nat) (cs : List Char) (tok : Token)
    (pos2 : Nat) (cs2 : List Char) (h : lexNumber pos cs = .ok (tok, pos2, cs2)) :
    ∀ k, tok.val ≠ .Keyword k := by
  unfold lexNumber at h
  cases hp : parseF64 (String.mk (consumeWhile (fun c => isNumericCh c || c == '.') pos cs).1) with
  | some num =>
    simp only [hp] at h
    simp at h
    intro k
    simp [← h.1]
  | none =>
    simp only [hp] at h
    simp at h

theorem lexName_not_keyword (pos : Nat) (cs : List Char) (tok : Token)
    (pos2 : Nat) (cs2 : List Char) (h : lexName pos cs = .ok (tok, pos2, cs2)) :
    ∀ k, tok.val ≠ .Keyword k := by
  unfold lexName at h
  simp at h
  intro k
  simp [← h.1]

theorem lexSingleChar_not_keyword (pos : Nat) (c : Char) (rest : List Char)
    (tok : Token) (pos2 : Nat) (cs2 : List Char)
    (h : lexSingleChar pos c rest = .ok (tok, pos2, cs2)) :
    ∀ k, tok.val ≠ .Keyword k := by
  unfold lexSingleChar at h
  cases hv : lexSingleCharVal c.toLower with
  | some v =>
    simp only [hv] at h
    simp at h
    intro k
    rw [← h.1]
    simp
    exact lexSingleCharVal_not_keyword _ _ hv k
  | none =>
    simp only [hv] at h
    simp at h

theorem lexStep_not_keyword (pos1 : Nat) (c : Char) (rest : List Char)
    (tok : Token) (pos2 : Nat) (cs2 : List Char)
    (h : (if isNumericCh c = true then lexNumber pos1 (c :: rest)
          else if isAlphabeticCh c = true then lexName pos1 (c :: rest)
          else lexSingleChar pos1 c rest) = .ok (tok, pos2, cs2)) :
    ∀ k, tok.val ≠ .Keyword k := by
  split at h
  · exact lexNumber_not_keyword _ _ _ _ _ h
  · split at h
    · exact lexName_not_keyword _ _ _ _ _ h
    · exact lexSingleChar_not_keyword _ _ _ _ _ _ h

theorem lexLoop_not_keyword : ∀ (fuel pos : Nat) (cs : List Char) (toks : List Token),
    lexLoop fuel pos cs = .ok toks → ∀ t ∈ toks, ∀ k, t.val ≠ .Keyword k := by
  intro fuel
  induction fuel with
  | zero => intro pos cs toks h; simp [lexLoop] at h
  | succ fuel ih =>
    intro pos cs toks h
    rw [lexLoop] at h
    cases hws : (consumeWhile isWhitespaceCh pos cs).2.2 with
    | nil =>
      rw [hws] at h
      simp at h
      subst h
      simp
    | cons c rest =>
      rw [hws] at h
      dsimp only at h
      split at h
      · simp at h
      · rename_i tok pos2 cs2 hstep
        split at h
        · simp at h
        · rename_i toks2 hrec
          simp at h
          subst h
          intro t ht
          rcases List.mem_cons.mp ht with he | hm
          · subst he
            exact lexStep_not_keyword _ _ _ _ _ _ hstep
          · exact ih _ _ _ hrec t hm

theorem getBuiltin_getD_not_op (name : String) (o : OpKind) :
    (getBuiltinName name).getD (.Name name) ≠ .Op o := by
  unfold getBuiltinName
  split <;> simp

theorem parseL_no_assign : ∀ (fuel : Nat) (lvl : PLevel) (st : PState) (ast : Ast)
    (st' : PState), plevelOK lvl → parseL fuel lvl st = .ok (ast, st') →
    ast.val ≠ .Op .Assign := by
  intro fuel
  induction fuel with
  | zero => intro lvl st ast st' _ h; simp [parseL] at h
  | succ fuel ih =>
    intro lvl st ast st' hok h
    cases lvl with
    | expression => exact absurd hok (by simp [plevelOK])
    | equation =>
      rw [parseL] at h
      cases hp : parseL fuel .product st with
      | error e => rw [hp] at h; simp at h
      | ok pr =>
        obtain ⟨lhs, st1⟩ := pr
        rw [hp] at h
        exact ih (.equationLoop lhs) st1 ast st'
          (ih .product st lhs st1 trivial hp) h
    | equationLoop lhs =>
      rw [parseL] at h
      split at h
      · split at h
        · simp at h
        · exact ih _ _ _ _ (by simp [plevelOK, Ast.val]) h
      · split at h
        · simp at h
        · exact ih _ _ _ _ (by simp [plevelOK, Ast.val]) h
      · split at h
        · simp at h
        · simp at h
          rw [← h.1]
          exact hok
      · split at h
        · simp at h
        · simp at h
          rw [← h.1]
          exact hok
      · simp at h
        rw [← h.1]
        exact hok
    | product =>
      rw [parseL] at h
      cases hp : parseL fuel .factor st with
      | error e => rw [hp] at h; simp at h
      | ok pr =>
        obtain ⟨lhs, st1⟩ := pr
        rw [hp] at h
        exact ih (.productLoop lhs) st1 ast st'
          (ih .factor st lhs st1 trivial hp) h
    | productLoop lhs =>
      rw [parseL] at h
      split at h
      · split at h
        · simp at h
        · exact ih _ _ _ _ (by simp [plevelOK, Ast.val]) h
      · split at h
        · simp at h
        · exact ih _ _ _ _ (by simp [plevelOK, Ast.val]) h
      · simp at h
        rw [← h.1]
        exact hok
    | factor =>
      rw [parseL] at h
      split at h
      · split at h
        · simp at h
        · simp at h
          rw [← h.1]
          simp [Ast.val]
      · split at h
        · simp at h
        · split at h
          · split at h
            · simp at h
            · simp at h
              rw [← h.1]
              simp [Ast.val]
          · simp at h
            rw [← h.1]
            exact ih .exponent st _ _ trivial (by assumption)
    | exponent =>
      rw [parseL] at h
      cases hp : parseL fuel .number st with
      | error e => rw [hp] at h; simp at h
      | ok pr =>
        obtain ⟨out, st1⟩ := pr
        rw [hp] at h
        exact ih (.exponentLoop out) st1 ast st'
          (ih .number st out st1 trivial hp) h
    | exponentLoop acc =>
      rw [parseL] at h
      split at h
      · exact ih _ _ _ _ (by simp [plevelOK, Ast.val]) h
      · simp at h
        rw [← h.1]
        exact hok
    | number =>
      rw [parseL] at h
      split at h
      · simp at h
      · split at h
        · dsimp only at h
          split at h
          · split at h
            · split at h
              · simp at h
              · simp at h
                rw [← h.1]
                simp only [Ast.val]
                exact getBuiltin_getD_not_op _ _
            · simp at h
          · simp at h
            rw [← h.1]
            simp only [Ast.val]
            exact getBuiltin_getD_not_op _ _
        · dsimp only at h
          split at h
          · simp at h
          · split at h
            · simp at h
              rw [← h.1]
              simp [Ast.val]
            · simp at h
        · dsimp only at h
          split at h
          · simp at h
          · split at h
            · simp at h
              rw [← h.1]
              simp [Ast.val]
            · simp at h
        · dsimp only at h
          simp at h
          rw [← h.1]
          simp [Ast.val]
        · simp at h

theorem evalExpr_ne_okNone (F : FloatFns) (st : InterpState) (ast : Ast)
    (hv : ast.val ≠ .Op .Assign) : (evalExpr F st ast).1 ≠ .ok none := by
  cases hr : evalEq F st ast with
  | error e => simp [evalExpr, hv, hr]
  | ok v => simp [evalExpr, hv, hr]

theorem parseTokens_no_assign (toks : List Token) (ast : Ast)
    (hnk : ∀ t ∈ toks, ∀ k, t.val ≠ .Keyword k)
    (hp : parseTokens toks = .ok ast) : ast.val ≠ .Op .Assign := by
  unfold parseTokens at hp
  dsimp only at hp
  cases hq : parseL (6 * (toks.length + 1) + 6) .expression
      ⟨toks, 0, 0, (toks.getLast?.map (fun tok => tok.span.2)).getD 0⟩ with
  | error e => rw [hq] at hp; simp at hp
  | ok pr =>
    obtain ⟨a, st'⟩ := pr
    rw [hq] at hp
    simp at hp
    subst hp
    have hsucc : 6 * (toks.length + 1) + 6 = (6 * (toks.length + 1) + 5) + 1 := by omega
    rw [hsucc, parseL] at hq
    cases toks with
    | nil =>
      exact parseL_no_assign _ .equation _ _ _ trivial hq
    | cons t ts =>
      obtain ⟨tv, tsp⟩ := t
      cases tv with
      | Keyword k =>
        cases k
        exact absurd rfl (hnk ⟨.Keyword .Let, tsp⟩ (by simp) .Let)
      | Name s =>
        dsimp only at hq
        exact parseL_no_assign _ .equation _ _ _ trivial hq
      | Num n =>
        dsimp only at hq
        exact parseL_no_assign _ .equation _ _ _ trivial hq
      | Op o =>
        dsimp only at hq
        exact parseL_no_assign _ .equation _ _ _ trivial hq
      | ParenOpen =>
        dsimp only at hq
        exact parseL_no_assign _ .equation _ _ _ trivial hq
      | ParenClose =>
        dsimp only at hq
        exact parseL_no_assign _ .equation _ _ _ trivial hq
      | AbsDelim =>
        dsimp only at hq
        exact parseL_no_assign _ .equation _ _ _ trivial hq

theorem toLower_of_not_alpha {c : Char} (h : isAlphabeticCh c = false) :
    c.toLower = c := by
  simp [isAlphabeticCh, Char.isAlpha, Char.isUpper, Char.isLower] at h
  obtain ⟨⟨h1, _⟩, _⟩ := h
  unfold Char.toLower
  rw [if_neg]
  intro hcon
  obtain ⟨h65, h90⟩ := hcon
  have hle : (65 : UInt32) ≤ c.val := h65
  have hgt : (90 : Nat) < c.toNat := h1.1 hle
  omega

theorem lexSingleCharVal_none {c : Char}
    (h : c ∉ (['+', '-', '*', '/', '^', '!', '√', '(', ')', '|'] : List Char)) :
    lexSingleCharVal c = none := by
  unfold lexSingleCharVal
  split <;> simp_all

theorem lexLoop_invalid (fuel pos : Nat) (rest : List Char) (c : Char)
    (hn : isNumericCh c = false) (ha : isAlphabeticCh c = false)
    (hw : isWhitespaceCh c = false)
    (hmem : c ∉ (['+', '-', '*', '/', '^', '!', '√', '(', ')', '|'] : List Char)) :
    lexLoop (fuel + 1) pos (c :: rest) =
      .error ⟨"Invalid char: " ++ String.mk [c], some (pos, pos + 1)⟩ := by
  rw [lexLoop]
  have hcw : consumeWhile isWhitespaceCh pos (c :: rest) = ([], pos, c :: rest) := by
    unfold consumeWhile
    rw [if_neg (by simp [hw])]
  rw [hcw]
  dsimp only
  rw [if_neg (by simp [hn]), if_neg (by simp [ha])]
  unfold lexSingleChar
  rw [toLower_of_not_alpha ha]
  simp [lexSingleCharVal_none hmem]

/-! ## The claims -/

/-- Counterexample to claim C1 as stated: evaluating "x = 5" in a fresh
session yields an invalid-char error, not `Ok(None)`, and binds nothing:
`x` is absent from the resulting variable table. -/
theorem claim_C1_counterexample :
    evalExpression defaultFns freshInterp "x = 5" =
      (.error ⟨"Invalid char: =", some (2, 3)⟩, freshInterp) ∧
    lookupVar (evalExpression defaultFns freshInterp "x = 5").2.vars "x" = none :=
  ⟨rfl, rfl⟩

/-- Claim C1 (corrected): in a fresh session the text "x = 5" does not
perform an assignment — the lexer has no rule for the character `=`
(`lex_single_char` falls through to its invalid-char arm), so
`eval_expression` returns the error `Invalid char: =` with span `(2, 3)`
and leaves the session untouched, and the follow-up "x + 1" fails with the
unknown-identifier error `Invalid function or constant: x` at span `(0, 1)`
rather than returning `Ok(Some(6.0))`. -/
theorem claim_C1 :
    evalExpression defaultFns freshInterp "x = 5" =
      (.error ⟨"Invalid char: =", some (2, 3)⟩, freshInterp) ∧
    evalExpression defaultFns freshInterp "x + 1" =
      (.error ⟨"Invalid function or constant: x", some (0, 1)⟩, freshInterp) :=
  ⟨rfl, rfl⟩

/-- Counterexample to claim C2 as stated: `[` does not lex to a bracket
token, and "[1+2)" is rejected with an invalid-char error at the `[`
rather than for mismatched delimiter kinds. -/
theorem claim_C2_counterexample :
    lexEquation "[1+2)" = .error ⟨"Invalid char: [", some (0, 1)⟩ ∧
    lexEquation "[" = .error ⟨"Invalid char: [", some (0, 1)⟩ :=
  ⟨rfl, rfl⟩

/-- Claim C2 (corrected): each of the symbol characters
`+ - * / ^ ! ( ) |` lexes to its corresponding operator or delimiter token
(spanning exactly that character), `√` lexes to the name token "sqrt", and
every other non-numeric, non-alphabetic, non-whitespace character — which
includes `[`, `]`, and the two brace characters — makes lexing fail with an
invalid-char error whose span is exactly that one character; in particular
"[1+2)" is rejected by the lexer with `Invalid char: [` at span `(0, 1)`,
not by any delimiter-kind matching. -/
theorem claim_C2 :
    (∀ (pos : Nat) (rest : List Char),
      lexSingleChar pos '+' rest = .ok (⟨.Op .Plus, (pos, pos + 1)⟩, pos + 1, rest) ∧
      lexSingleChar pos '-' rest = .ok (⟨.Op .Minus, (pos, pos + 1)⟩, pos + 1, rest) ∧
      lexSingleChar pos '*' rest = .ok (⟨.Op .Mult, (pos, pos + 1)⟩, pos + 1, rest) ∧
      lexSingleChar pos '/' rest = .ok (⟨.Op .Div, (pos, pos + 1)⟩, pos + 1, rest) ∧
      lexSingleChar pos '^' rest = .ok (⟨.Op .Pow, (pos, pos + 1)⟩, pos + 1, rest) ∧
      lexSingleChar pos '!' rest = .ok (⟨.Op .Fact, (pos, pos + 1)⟩, pos + 1, rest) ∧
      lexSingleChar pos '(' rest = .ok (⟨.ParenOpen, (pos, pos + 1)⟩, pos + 1, rest) ∧
      lexSingleChar pos ')' rest = .ok (⟨.ParenClose, (pos, pos + 1)⟩, pos + 1, rest) ∧
      lexSingleChar pos '|' rest = .ok (⟨.AbsDelim, (pos, pos + 1)⟩, pos + 1, rest) ∧
      lexSingleChar pos '√' rest = .ok (⟨.Name "sqrt", (pos, pos + 1)⟩, pos + 1, rest)) ∧
    (∀ (fuel pos : Nat) (rest : List Char) (c : Char),
      isNumericCh c = false → isAlphabeticCh c = false → isWhitespaceCh c = false →
      c ∉ (['+', '-', '*', '/', '^', '!', '√', '(', ')', '|'] : List Char) →
      lexLoop (fuel + 1) pos (c :: rest) =
        .error ⟨"Invalid char: " ++ String.mk [c], some (pos, pos + 1)⟩) ∧
    lexEquation "[1+2)" = .error ⟨"Invalid char: [", some (0, 1)⟩ :=
  ⟨fun _ _ => ⟨rfl, rfl, rfl, rfl, rfl, rfl, rfl, rfl, rfl, rfl⟩,
   lexLoop_invalid, rfl⟩

/-- Witness for claim C2: the concrete unrecognized character `#` fails
with `Invalid char: #` spanning exactly that character. -/
theorem claim_C2_witness :
    lexLoop 1 0 ['#'] = .error ⟨"Invalid char: #", some (0, 1)⟩ :=
  claim_C2.2.1 0 0 [] '#' (by decide) (by decide) (by decide) (by decide)

/-- Claim C3 (confirmed): lexing "2+3" yields exactly three tokens with
spans `(0,1)`, `(1,2)`, `(2,3)`; parsing yields an addition node whose own
span is `(1,2)` — the operator token's span — and whose total span,
the recursive min of starts and max of ends, is `(0,3)`. -/
theorem claim_C3 :
    lexEquation "2+3" =
      .ok [⟨.Num ⟨2, 1⟩, (0, 1)⟩, ⟨.Op .Plus, (1, 2)⟩, ⟨.Num ⟨3, 1⟩, (2, 3)⟩] ∧
    parseTokens [⟨.Num ⟨2, 1⟩, (0, 1)⟩, ⟨.Op .Plus, (1, 2)⟩, ⟨.Num ⟨3, 1⟩, (2, 3)⟩] =
      .ok (.binary (.Op .Plus) (1, 2)
        (.leaf (.Num ⟨2, 1⟩) (0, 1)) (.leaf (.Num ⟨3, 1⟩) (2, 3))) ∧
    Ast.span (.binary (.Op .Plus) (1, 2)
      (.leaf (.Num ⟨2, 1⟩) (0, 1)) (.leaf (.Num ⟨3, 1⟩) (2, 3))) = (1, 2) ∧
    Ast.val (.binary (.Op .Plus) (1, 2)
      (.leaf (.Num ⟨2, 1⟩) (0, 1)) (.leaf (.Num ⟨3, 1⟩) (2, 3))) = .Op .Plus ∧
    Ast.get_total_span (.binary (.Op .Plus) (1, 2)
      (.leaf (.Num ⟨2, 1⟩) (0, 1)) (.leaf (.Num ⟨3, 1⟩) (2, 3))) = (0, 3) :=
  ⟨rfl, rfl, rfl, rfl, rfl⟩

/-- Claim C4 (confirmed): "2+3*4" evaluates to `Some(14.0)`
(multiplication binds tighter than addition) and "2^3^2" evaluates to
`Some(512.0)`, i.e. the power operator is right-associative, computing
`2 ^ (3 ^ 2)`.  The final conjuncts restate the two values as exact
rationals. -/
theorem claim_C4 :
    (evalExpression defaultFns freshInterp "2+3*4").1 = .ok (some ⟨14, 1⟩) ∧
    F64.toRat ⟨14, 1⟩ = 14 ∧
    (evalExpression defaultFns freshInterp "2^3^2").1 = .ok (some ⟨512, 1⟩) ∧
    F64.toRat ⟨512, 1⟩ = 512 ∧
    (512 : ℚ) = 2 ^ (3 ^ 2 : ℕ) ∧ (14 : ℚ) = 2 + 3 * 4 :=
  ⟨rfl, by simp [F64.toRat], rfl, by simp [F64.toRat], by norm_num, by norm_num⟩

/-- Claim C5 (confirmed): for every bundle of floating-point primitives,
evaluating a `Sqrt` node whose argument evaluates to a negative value fails
with the domain error "Cannot take the square root of a negative number"
spanned by the argument child's total span, and a `Ln` or `Log` node whose
argument is non-positive fails with "Cannot take the logarithm of a
non-positive number" under the same span policy; for non-negative
(respectively strictly positive) arguments the bundle's `sqrt`, `ln`, and
`log10` are applied.  Concretely, "sqrt(-1)" fails with that domain error
at span `(4, 8)` — the total span of the parenthesised argument, which
covers the `-1` sub-expression at `(5, 7)`. -/
theorem claim_C5 :
    (∀ (F : FloatFns) (st : InterpState) (sp : Nat × Nat) (child : Ast) (v : F64),
      evalEq F st child = .ok v → 0 < v.den →
      ((v.toRat < 0 → evalEq F st (.unary (.Func .Sqrt) sp child) =
          .error ⟨"Cannot take the square root of a negative number",
                  some child.get_total_span⟩) ∧
       (0 ≤ v.toRat → evalEq F st (.unary (.Func .Sqrt) sp child) = .ok (F.sqrt v)) ∧
       (v.toRat ≤ 0 → evalEq F st (.unary (.Func .Ln) sp child) =
          .error ⟨"Cannot take the logarithm of a non-positive number",
                  some child.get_total_span⟩) ∧
       (0 < v.toRat → evalEq F st (.unary (.Func .Ln) sp child) = .ok (F.ln v)) ∧
       (v.toRat ≤ 0 → evalEq F st (.unary (.Func .Log) sp child) =
          .error ⟨"Cannot take the logarithm of a non-positive number",
                  some child.get_total_span⟩) ∧
       (0 < v.toRat → evalEq F st (.unary (.Func .Log) sp child) = .ok (F.log10 v)))) ∧
    evalExpression defaultFns freshInterp "sqrt(-1)" =
      (.error ⟨"Cannot take the square root of a negative number", some (4, 8)⟩,
       freshInterp) := by
  constructor
  · intro F st sp child v h hv
    have hzden : (0 : Int) < F64.zero.den := by norm_num [F64.zero]
    refine ⟨?_, ?_, ?_, ?_, ?_, ?_⟩
    · intro hneg
      have hb : F64.blt v F64.zero = true := by
        rw [F64.blt_iff hv hzden, F64.toRat_zero]
        exact hneg
      rw [evalEq_func F st .Sqrt sp child v h]
      simp [evalFuncVal, hb]
    · intro hpos
      have hb : F64.blt v F64.zero = false := by
        rw [← Bool.not_eq_true, F64.blt_iff hv hzden, F64.toRat_zero]
        exact not_lt.mpr hpos
      rw [evalEq_func F st .Sqrt sp child v h]
      simp [evalFuncVal, hb]
    · intro hneg
      have hb : F64.ble v F64.zero = true := by
        rw [F64.ble_iff hv hzden, F64.toRat_zero]
        exact hneg
      rw [evalEq_func F st .Ln sp child v h]
      simp [evalFuncVal, hb]
    · intro hpos
      have hb : F64.ble v F64.zero = false := by
        rw [← Bool.not_eq_true, F64.ble_iff hv hzden, F64.toRat_zero]
        exact not_le.mpr hpos
      rw [evalEq_func F st .Ln sp child v h]
      simp [evalFuncVal, hb]
    · intro hneg
      have hb : F64.ble v F64.zero = true := by
        rw [F64.ble_iff hv hzden, F64.toRat_zero]
        exact hneg
      rw [evalEq_func F st .Log sp child v h]
      simp [evalFuncVal, hb]
    · intro hpos
      have hb : F64.ble v F64.zero = false := by
        rw [← Bool.not_eq_true, F64.ble_iff hv hzden, F64.toRat_zero]
        exact not_le.mpr hpos
      rw [evalEq_func F st .Log sp child v h]
      simp [evalFuncVal, hb]
  · rfl

/-- Witness for claim C5: a `Sqrt` node over the literal `-1` fails with
the square-root domain error spanned by the child. -/
theorem claim_C5_witness :
    evalEq defaultFns freshInterp
      (.unary (.Func .Sqrt) (0, 4) (.leaf (.Num ⟨-1, 1⟩) (5, 7))) =
      .error ⟨"Cannot take the square root of a negative number", some (5, 7)⟩ :=
  (claim_C5.1 defaultFns freshInterp (0, 4) (.leaf (.Num ⟨-1, 1⟩) (5, 7)) ⟨-1, 1⟩
    rfl (by decide)).1 (by simp [F64.toRat])

/-- Counterexample to claim C6 as stated: the claim's universal clause —
every non-negative integer-valued double `n` yields the product
`1 * 2 * … * n` — fails at `n = 23`.  The loop the program runs is the
correctly-rounded `ieeeFactLoop` (each `out *= num` is an IEEE `f64`
multiplication), and at `23` it returns `25852016738884978212864`, not
`23! = 25852016738884976640000`: the exact product needs more than 53
significand bits, so the multiplications round. -/
theorem claim_C6_counterexample :
    ieeeFactLoop 24 1 23 = 25852016738884978212864 ∧
    Nat.factorial 23 = 25852016738884976640000 ∧
    ((25852016738884978212864 : Nat) == 25852016738884976640000) = false := by
  refine ⟨?_, by decide, by decide⟩
  set_option maxRecDepth 10000 in decide

/-- Claim C6 (corrected): a `Factorial` node whose child denotes a
non-negative integer `k ≤ 22` evaluates exactly to `k!`: on that domain
the bit-accurate, correctly-rounded loop `ieeeFactLoop` — which is what
the `f64` program computes — agrees with the exact product (first
conjunct, checked for every `k ≤ 22`), so the exact-rational pipeline
`evalfFact` is faithful there and provably returns `k!` (second
conjunct).  Beyond `22` the real loop rounds (see the counterexample), so
the exactness clause is bounded.  A child whose value is negative or has
a fractional part fails with the domain error "The factorial function
only accepts positive whole numbers" spanned by the child's total span;
concretely "0!" evaluates to `1.0` and "3.5!" fails with that domain
error at span `(0, 3)`. -/
theorem claim_C6 :
    (∀ k : ℕ, k ≤ 22 → ieeeFactLoop (k + 1) 1 k = Nat.factorial k) ∧
    (∀ (num : F64) (child : Ast) (k : ℕ), k ≤ 22 → 0 < num.den →
       num.toRat = (k : ℚ) →
       ∃ r, evalfFact num child = .ok r ∧ r.toRat = (Nat.factorial k : ℚ)) ∧
    (∀ (num : F64) (child : Ast), 0 < num.den → (∀ k : ℕ, num.toRat ≠ (k : ℚ)) →
       evalfFact num child =
         .error ⟨"The factorial function only accepts positive whole numbers",
                 some child.get_total_span⟩) ∧
    (evalExpression defaultFns freshInterp "0!").1 = .ok (some ⟨1, 1⟩) ∧
    F64.toRat ⟨1, 1⟩ = 1 ∧
    evalExpression defaultFns freshInterp "3.5!" =
      (.error ⟨"The factorial function only accepts positive whole numbers",
               some (0, 3)⟩, freshInterp) := by
  refine ⟨?_, ?_, ?_, rfl, by simp [F64.toRat], rfl⟩
  · set_option maxRecDepth 40000 in decide
  · intro num child k _ hden hval
    obtain ⟨h1, h2⟩ := evalfFact_int num child k hden hval
    exact ⟨_, h1, h2⟩
  · intro num child hden hnot
    exact evalfFact_not_int num child hden hnot

/-- Witness for claim C6: factorial of the concrete value `4` succeeds and
denotes `4! = 24`, and the rounded reference loop at `4` is exact. -/
theorem claim_C6_witness :
    ieeeFactLoop 5 1 4 = Nat.factorial 4 ∧
    ∃ r, evalfFact ⟨4, 1⟩ (.leaf (.Num ⟨4, 1⟩) (0, 1)) = .ok r ∧
      r.toRat = (Nat.factorial 4 : ℚ) :=
  ⟨claim_C6.1 4 (by decide),
   claim_C6.2.1 ⟨4, 1⟩ (.leaf (.Num ⟨4, 1⟩) (0, 1)) 4 (by decide) (by decide)
     (by simp [F64.toRat])⟩

/-- Counterexample to claim C8 as stated: parsing the single token ")"
fails with "Expected number or constant", which is not the
missing-opening-delimiter error the claim names. -/
theorem claim_C8_counterexample :
    evalExpression defaultFns freshInterp ")" =
      (.error ⟨"Expected number or constant", some (0, 1)⟩, freshInterp) ∧
    (("Expected number or constant" == "Missing opening parentheses") = false) :=
  ⟨rfl, rfl⟩

/-- Claim C8 (corrected): a lone ")" fails with the parser error
"Expected number or constant" at span `(0, 1)` (the closing delimiter is
consumed where a number production was expected, before the
missing-opening check can run); an unmatched closing `)` or `|`
encountered after a successfully parsed equation while the corresponding
nesting counter is zero fails with "Missing opening parentheses" /
"Missing opening abs delimiter" (for every fuel, accumulated left-hand
side and trailing tokens, and concretely for "1)" and "1|"); and reaching
end of input with a nonzero nesting counter, as in "(1+2", fails with
"Missing closing parentheses". -/
theorem claim_C8 :
    evalExpression defaultFns freshInterp ")" =
      (.error ⟨"Expected number or constant", some (0, 1)⟩, freshInterp) ∧
    (∀ (fuel : Nat) (lhs : Ast) (sp : Nat × Nat) (rest : List Token) (alvl ep : Nat),
      parseL (fuel + 1) (.equationLoop lhs) ⟨⟨.ParenClose, sp⟩ :: rest, 0, alvl, ep⟩ =
        .error ⟨"Missing opening parentheses", some sp⟩) ∧
    (∀ (fuel : Nat) (lhs : Ast) (sp : Nat × Nat) (rest : List Token) (plvl ep : Nat),
      parseL (fuel + 1) (.equationLoop lhs) ⟨⟨.AbsDelim, sp⟩ :: rest, plvl, 0, ep⟩ =
        .error ⟨"Missing opening abs delimiter", some sp⟩) ∧
    evalExpression defaultFns freshInterp "1)" =
      (.error ⟨"Missing opening parentheses", some (1, 2)⟩, freshInterp) ∧
    evalExpression defaultFns freshInterp "1|" =
      (.error ⟨"Missing opening abs delimiter", some (1, 2)⟩, freshInterp) ∧
    evalExpression defaultFns freshInterp "(1+2" =
      (.error ⟨"Missing closing parentheses", some (0, 1)⟩, freshInterp) :=
  ⟨rfl, fun _ _ _ _ _ _ => rfl, fun _ _ _ _ _ _ => rfl, rfl, rfl, rfl⟩

/-- Claim C9 (confirmed): whenever `eval_expression` returns an error the
session state is exactly as it was before the call; an assignment node
inserts its left-hand name only after the right-hand side has evaluated
successfully (a failing right-hand side leaves the state unchanged); and a
successful non-assignment evaluation changes the state only by overwriting
the last result with the computed value. -/
theorem claim_C9 :
    (∀ (F : FloatFns) (st : InterpState) (s : String) (e : CalcrError),
       (evalExpression F st s).1 = .error e → (evalExpression F st s).2 = st) ∧
    (∀ (F : FloatFns) (st : InterpState) (sp sp2 : Nat × Nat) (name : String)
       (rhs : Ast) (e : CalcrError), evalEq F st rhs = .error e →
       evalExpr F st (.binary (.Op .Assign) sp (.leaf (.Name name) sp2) rhs) =
         (.error e, st)) ∧
    (∀ (F : FloatFns) (st : InterpState) (sp sp2 : Nat × Nat) (name : String)
       (rhs : Ast) (v : F64), evalEq F st rhs = .ok v →
       evalExpr F st (.binary (.Op .Assign) sp (.leaf (.Name name) sp2) rhs) =
         (.ok none, ⟨insertVar st.vars name v, st.lastResult⟩)) ∧
    (∀ (F : FloatFns) (st : InterpState) (s : String) (v : F64),
       (evalExpression F st s).1 = .ok (some v) →
       (evalExpression F st s).2 = ⟨st.vars, v⟩) :=
  ⟨evalExpression_error_state, evalExpr_assign_err, evalExpr_assign_ok,
   evalExpression_okSome_state⟩

/-- Witness for claim C9: the failing input "x" (unknown identifier)
leaves a fresh session unchanged. -/
theorem claim_C9_witness :
    (evalExpression defaultFns freshInterp "x").2 = freshInterp :=
  claim_C9.1 defaultFns freshInterp "x"
    ⟨"Invalid function or constant: x", some (0, 1)⟩ rfl

/-- Claim C10 (confirmed): through the public pipeline `eval_expression`
never returns `Ok(None)`, for any primitive bundle, session state, and
input string: the lexer emits no `Keyword` token (and no `Assign`
operator), so the parser's assignment branch is unreachable and every
successful evaluation returns `Some` of a value. -/
theorem claim_C10 : ∀ (F : FloatFns) (st : InterpState) (s : String),
    isOkNone (evalExpression F st s).1 = false := by
  intro F st s
  cases hl : lexEquation s with
  | error e => simp [evalExpression, hl, isOkNone]
  | ok toks =>
    have hnk : ∀ t ∈ toks, ∀ k, t.val ≠ .Keyword k :=
      lexLoop_not_keyword _ _ _ _ hl
    cases hp : parseTokens toks with
    | error e => simp [evalExpression, hl, hp, isOkNone]
    | ok ast =>
      have hv := parseTokens_no_assign toks ast hnk hp
      cases hr : (evalExpr F st ast).1 with
      | error e => simp [evalExpression, hl, hp, hr, isOkNone]
      | ok o =>
        cases o with
        | none => exact absurd hr (evalExpr_ne_okNone F st ast hv)
        | some res => simp [evalExpression, hl, hp, hr, isOkNone]
